import Mathlib

/-
Verification of the pedalboard effects-chain core: a shallow embedding of
src/models/audio_effect.py, src/models/effects_chain.py, src/models/preset.py,
src/services/effects_manager.py and src/services/preset_manager.py, together
with theorems settling the frozen behavioural claims about them.

Modelling conventions:
* Python floats in parameter schemas are modelled as rationals; the code only
  ever compares and copies them, never does float arithmetic, so the values in
  play are exact.
* Python UUIDs are modelled as naturals supplied by the caller as a fresh-id
  argument (the code only tests them for equality).
* Wall-clock timestamps (created_at / modified_at) are omitted: no claim under
  verification mentions them and they influence no other field.
* Python dictionaries are modelled as insertion-ordered association lists whose
  keys are unique by construction, with Python's order-insensitive `==` on
  dicts embedded as an extensional comparison.
-/

namespace Pedalboard

deriving instance DecidableEq for Except

/-- Parameter value: Python ints/floats collapse to a rational, plus booleans.
Python treats `bool` as a subtype of `int` (`True == 1`, `False == 0`), which
`pyNum`/`pyEqB` reproduce. -/
inductive PVal where
  | num (q : ℚ)
  | bool (b : Bool)
deriving DecidableEq, Repr

/-- Numeric view of a value, as Python's arithmetic comparisons see it. -/
def pyNum : PVal → ℚ
  | .num q => q
  | .bool b => if b then 1 else 0

/-- Python `==` on parameter values: `True == 1` and `False == 0` hold. -/
def pyEqB (a b : PVal) : Bool :=
  match a, b with
  | .num x, .num y => x == y
  | .bool x, .bool y => x == y
  | .num x, .bool y => x == pyNum (.bool y)
  | .bool x, .num y => pyNum (.bool x) == y

/-- Association-list lookup, Python `dict.get`. -/
def aget {β : Type} (xs : List (String × β)) (k : String) : Option β :=
  match xs with
  | [] => none
  | kv :: rest => if kv.1 == k then some kv.2 else aget rest k

/-- Association-list store, Python `d[k] = v`: replace in place at the (only)
occurrence of the key, else append (insertion order preserved). -/
def aset {β : Type} (xs : List (String × β)) (k : String) (v : β) : List (String × β) :=
  match xs with
  | [] => [(k, v)]
  | kv :: rest => if kv.1 == k then (kv.1, v) :: rest else kv :: aset rest k v

/-- Association-list key removal, Python `del d[k]`. -/
def adel {β : Type} (xs : List (String × β)) (k : String) : List (String × β) :=
  xs.filter (fun kv => kv.1 != k)

/-- Python `==` on two parameter dicts: same key set, equal (`pyEqB`) values.
Order-insensitive, exactly like dict equality. -/
def dictEqB (a b : List (String × PVal)) : Bool :=
  a.all (fun kv => match aget b kv.1 with
    | some w => pyEqB kv.2 w
    | none => false) &&
  b.all (fun kv => match aget a kv.1 with
    | some w => pyEqB w kv.2
    | none => false)

/-- EffectType enum from audio_effect.py. -/
inductive EffectType where
  | BOOST
  | DISTORTION
  | DELAY
  | REVERB
deriving DecidableEq, Repr

/-- EffectType(value): parse the wire string, as the Python enum constructor. -/
def parseEffectType (s : String) : Option EffectType :=
  if s == "BOOST" then some .BOOST
  else if s == "DISTORTION" then some .DISTORTION
  else if s == "DELAY" then some .DELAY
  else if s == "REVERB" then some .REVERB
  else none

/-- One row of PARAMETER_DEFINITIONS. -/
structure ParamDef where
  min : ℚ
  max : ℚ
  default : PVal
  units : String
  curve : String
deriving DecidableEq, Repr

/-- AudioEffect.PARAMETER_DEFINITIONS, verbatim from audio_effect.py. -/
def PARAMETER_DEFINITIONS : EffectType → List (String × ParamDef)
  | .BOOST =>
    [("gain_db", ⟨-20, 30, .num 0, "dB", "linear"⟩),
     ("tone", ⟨0, 1, .num (Rat.divInt 1 2), "", "linear"⟩)]
  | .DISTORTION =>
    [("drive_db", ⟨0, 30, .num 10, "dB", "linear"⟩),
     ("tone", ⟨0, 1, .num (Rat.divInt 1 2), "", "linear"⟩),
     ("level", ⟨0, 1, .num (Rat.divInt 7 10), "", "linear"⟩)]
  | .DELAY =>
    [("delay_seconds", ⟨0, 2, .num (Rat.divInt 1 4), "s", "linear"⟩),
     ("feedback", ⟨0, Rat.divInt 19 20, .num (Rat.divInt 3 10), "", "linear"⟩),
     ("mix", ⟨0, 1, .num (Rat.divInt 3 10), "", "linear"⟩),
     ("tempo_sync", ⟨0, 1, .bool false, "bool", "linear"⟩)]
  | .REVERB =>
    [("room_size", ⟨0, 1, .num (Rat.divInt 1 2), "", "linear"⟩),
     ("damping", ⟨0, 1, .num (Rat.divInt 1 2), "", "linear"⟩),
     ("wet_level", ⟨0, 1, .num (Rat.divInt 3 10), "", "linear"⟩),
     ("dry_level", ⟨0, 1, .num (Rat.divInt 7 10), "", "linear"⟩)]

/-- Validation errors raised by AudioEffect.update_parameters. -/
inductive ParamError where
  | unknownParam (name : String)
  | notBool (name : String)
  | outOfRange (name : String)
deriving DecidableEq, Repr

/-- Validation of a single key/value pair, the body of the loop in
AudioEffect.update_parameters. Booleans accept anything Python-`==` to 0 or 1
and are coerced with bool(); numeric parameters are range-checked (a Python
bool passes the isinstance numeric check, with its 0/1 value). On success the
value to store is returned. -/
def validateParam (ty : EffectType) (name : String) (v : PVal) : Except ParamError PVal :=
  match aget (PARAMETER_DEFINITIONS ty) name with
  | none => .error (.unknownParam name)
  | some d =>
    if d.units == "bool" then
      if pyEqB v (.num 0) || pyEqB v (.num 1) then .ok (.bool (pyNum v != 0))
      else .error (.notBool name)
    else
      if pyNum v < d.min || pyNum v > d.max then .error (.outOfRange name)
      else .ok v

/-- The stored value produced by a successful validation of `v` against `d`. -/
def coerceVal (d : ParamDef) (v : PVal) : PVal :=
  if d.units == "bool" then .bool (pyNum v != 0) else v

/-- AudioEffect.update_parameters applied to a parameter dict: processes the
update entries in order, mutating as it goes, and stops at the first invalid
entry, leaving earlier entries applied (the Python code raises there, with
`self.parameters` already updated for the prior keys). -/
def applyUpdates (ty : EffectType) (ps : List (String × PVal)) :
    List (String × PVal) → List (String × PVal) × Option ParamError
  | [] => (ps, none)
  | (k, v) :: rest =>
    match validateParam ty k v with
    | .ok v' => applyUpdates ty (aset ps k v') rest
    | .error e => (ps, some e)

/-- Schema defaults, as populated by the first loop of AudioEffect.__init__. -/
def defaultParams (ty : EffectType) : List (String × PVal) :=
  (PARAMETER_DEFINITIONS ty).map (fun nd => (nd.1, nd.2.default))

/-- AudioEffect from audio_effect.py (timestamps none; id is the modelled
uuid4 value). -/
structure AudioEffect where
  id : Nat
  type : EffectType
  bypassed : Bool
  position : Int
  preset_name : Option String
  parameters : List (String × PVal)
deriving DecidableEq, Repr

/-- AudioEffect.__init__: defaults, then the overrides through
update_parameters; a validation error there aborts construction. -/
def AudioEffect.create (ty : EffectType) (parameters : List (String × PVal))
    (fresh : Nat) : Except ParamError AudioEffect :=
  match applyUpdates ty (defaultParams ty) parameters with
  | (ps, none) =>
    .ok { id := fresh, type := ty, bypassed := false, position := 0,
          preset_name := none, parameters := ps }
  | (_, some e) => .error e

/-- AudioEffect.update_parameters on a live effect: the mutated effect is
returned together with the error, if any, since Python mutates in place
before raising. -/
def AudioEffect.update_parameters (e : AudioEffect) (us : List (String × PVal)) :
    AudioEffect × Option ParamError :=
  let r := applyUpdates e.type e.parameters us
  ({ e with parameters := r.1 }, r.2)

example :
    (AudioEffect.create .BOOST [("gain_db", .num 10)] 1).map
      (fun e => e.parameters) =
    .ok [("gain_db", .num 10), ("tone", .num (Rat.divInt 1 2))] := by decide

example :
    ((AudioEffect.create .BOOST [("gain_db", .num 10)] 1).map
      (fun e => (e.update_parameters [("gain_db", .num 31)]).1.parameters)) =
    .ok [("gain_db", .num 10), ("tone", .num (Rat.divInt 1 2))] := by decide

/-- Errors raised across the chain / preset / manager layers (each constructor
stands for one distinct ValueError / RuntimeError / IOError site). -/
inductive Err where
  | badName
  | badDescription
  | badTag
  | capacity
  | duplicateEffect
  | orderLength
  | orderMissing (id : Nat)
  | badType (s : String)
  | param (e : ParamError)
  | notFound
  | duplicateName
  | invalidData
  | persistence
deriving DecidableEq, Repr

/-- EffectsChain.MAX_EFFECTS. -/
def MAX_EFFECTS : Nat := 8

/-- EffectsChain from effects_chain.py (timestamps omitted). -/
structure EffectsChain where
  id : Nat
  name : String
  effects : List AudioEffect
  active : Bool
deriving DecidableEq, Repr

/-- EffectsChain.__init__: the 1-50 character name check (an empty string is
also caught by the length-1 bound). -/
def EffectsChain.make (fresh : Nat) (name : String) : Except Err EffectsChain :=
  if name.length < 1 || name.length > 50 then .error .badName
  else .ok { id := fresh, name := name, effects := [], active := false }

/-- EffectsChain._update_positions: renumber every effect to its index. -/
def updatePositions (es : List AudioEffect) : List AudioEffect :=
  es.enum.map (fun p => { p.2 with position := (p.1 : Int) })

/-- EffectsChain.add_effect: capacity check, duplicate check (AudioEffect
equality compares ids), then position := length and append. -/
def EffectsChain.add_effect (c : EffectsChain) (e : AudioEffect) : Except Err EffectsChain :=
  if c.effects.length ≥ MAX_EFFECTS then .error .capacity
  else if c.effects.any (fun x => x.id == e.id) then .error .duplicateEffect
  else .ok { c with effects := c.effects ++ [{ e with position := (c.effects.length : Int) }] }

/-- Helper for EffectsChain.remove_effect: pop the first effect whose id
matches, reporting whether one was found. -/
def removeFirstById : List AudioEffect → Nat → List AudioEffect × Bool
  | [], _ => ([], false)
  | e :: es, eid =>
    if e.id == eid then (es, true)
    else
      let r := removeFirstById es eid
      (e :: r.1, r.2)

/-- EffectsChain.remove_effect: remove by id, renumber positions on success. -/
def EffectsChain.remove_effect (c : EffectsChain) (eid : Nat) : EffectsChain × Bool :=
  let r := removeFirstById c.effects eid
  if r.2 then ({ c with effects := updatePositions r.1 }, true) else (c, false)

/-- The selection loop of EffectsChain.reorder_effects: for each requested id,
the first matching effect of the ORIGINAL list is appended; the first id with
no match raises. Note that a repeated id selects the same effect again. -/
def pickByIds (es : List AudioEffect) : List Nat → Except Err (List AudioEffect)
  | [] => .ok []
  | i :: is =>
    match es.find? (fun e => e.id == i) with
    | none => .error (.orderMissing i)
    | some e => (pickByIds es is).map (fun rest => e :: rest)

/-- EffectsChain.reorder_effects: length check, then the selection loop; the
chain is only mutated after the whole new list is built. -/
def EffectsChain.reorder_effects (c : EffectsChain) (ids : List Nat) : Except Err EffectsChain :=
  if ids.length != c.effects.length then .error .orderLength
  else
    (pickByIds c.effects ids).map (fun es => { c with effects := updatePositions es })

/-- Wire shape of one serialized effect, the dict AudioEffect.from_dict reads
(absent optional keys are `none`). -/
structure EffectDict where
  id : Option Nat
  type : String
  parameters : Option (List (String × PVal))
  bypassed : Option Bool
  position : Option Int
  preset_name : Option String
deriving DecidableEq, Repr

/-- AudioEffect.from_dict: re-create through the validated constructor, then
overwrite id / bypassed / position / preset_name directly from the dict (the
position is NOT checked against set_position's non-negativity). -/
def AudioEffect.from_dict (d : EffectDict) (fresh : Nat) : Except Err AudioEffect :=
  match parseEffectType d.type with
  | none => .error (.badType d.type)
  | some ty =>
    match AudioEffect.create ty (d.parameters.getD []) fresh with
    | .error e => .error (.param e)
    | .ok e =>
      .ok { e with id := d.id.getD fresh, bypassed := d.bypassed.getD false,
                   position := d.position.getD 0, preset_name := d.preset_name }

/-- Wire shape of a serialized chain, the dict EffectsChain.from_dict reads. -/
structure ChainDict where
  id : Option Nat
  name : String
  effects : List EffectDict
  active : Option Bool
deriving DecidableEq, Repr

/-- Effects loop of EffectsChain.from_dict: each descriptor through
AudioEffect.from_dict, consuming one fresh id per effect. -/
def fromDictEffects (fresh : Nat) : List EffectDict → Except Err (List AudioEffect)
  | [] => .ok []
  | d :: ds =>
    match AudioEffect.from_dict d fresh with
    | .error e => .error e
    | .ok e => (fromDictEffects (fresh + 1) ds).map (fun rest => e :: rest)

/-- EffectsChain.from_dict: constructor (name validation only), field
overrides, then each effect is APPENDED DIRECTLY to the effects list -
bypassing add_effect's capacity / duplicate / position handling. -/
def EffectsChain.from_dict (d : ChainDict) (fresh : Nat) : Except Err EffectsChain := do
  let c ← EffectsChain.make fresh d.name
  let es ← fromDictEffects (fresh + 1) d.effects
  .ok { c with id := d.id.getD fresh, active := d.active.getD false, effects := es }

example :
    (do
      let c ← EffectsChain.make 0 "T"
      let e1 ← (AudioEffect.create .BOOST [] 1).mapError Err.param
      let e2 ← (AudioEffect.create .DELAY [] 2).mapError Err.param
      let c ← c.add_effect e1
      let c ← c.add_effect e2
      (c.reorder_effects [2, 1]).map
        (fun c' : EffectsChain => c'.effects.map (fun e : AudioEffect => (e.id, e.position)))) =
    .ok [(2, 0), (1, 1)] := by decide

/-- Tag validation from preset.py: Python re.match of `[a-zA-Z0-9_-]+`
anchored on both sides (at least one character, ASCII alphanumerics,
hyphen or underscore). -/
def tagOk (t : String) : Bool :=
  t.length ≥ 1 && t.toList.all (fun c => c.isAlphanum || c == '-' || c == '_')

/-- One effect descriptor inside a preset's effects_chain_config: the keys
Preset.to_effects_chain reads, with absent keys as `none`. -/
structure EffectConfig where
  type : String
  parameters : Option (List (String × PVal))
  bypassed : Option Bool
  preset_name : Option String
deriving DecidableEq, Repr

/-- A preset's effects_chain_config dict in its canonical shape: optional
chain-name snapshot plus the ordered effect descriptors (an absent "effects"
key is the empty list, matching `.get("effects", [])`). -/
structure ChainConfig where
  name : Option String
  effects : List EffectConfig
deriving DecidableEq, Repr

/-- Preset from preset.py (timestamps omitted; id is the modelled uuid4). -/
structure Preset where
  id : Nat
  name : String
  description : Option String
  effects_chain_config : ChainConfig
  tags : List String
  author : Option String
  version : String
deriving DecidableEq, Repr

/-- Preset.__init__: name 1-100 characters, description at most 500, every
tag matching the tag pattern; `tags or []` stores the empty list for None. -/
def Preset.make (fresh : Nat) (name : String) (effects_chain_config : ChainConfig)
    (description : Option String) (tags : Option (List String))
    (author : Option String) (version : String) : Except Err Preset :=
  if name.length < 1 || name.length > 100 then .error .badName
  else if (match description with
           | some d => decide (d.length > 500)
           | none => false) then .error .badDescription
  else if !((tags.getD []).all tagOk) then .error .badTag
  else .ok { id := fresh, name := name, description := description,
             effects_chain_config := effects_chain_config,
             tags := tags.getD [], author := author, version := version }

/-- Body of the loop in Preset.to_effects_chain: one effect from its
descriptor - validated construction from `parameters` (missing key = `{}`),
then set_bypassed with default False and the optional preset label. -/
def buildEffect (cfg : EffectConfig) (fresh : Nat) : Except Err AudioEffect :=
  match parseEffectType cfg.type with
  | none => .error (.badType cfg.type)
  | some ty =>
    match AudioEffect.create ty (cfg.parameters.getD []) fresh with
    | .error e => .error (.param e)
    | .ok e => .ok { e with bypassed := cfg.bypassed.getD false,
                            preset_name := cfg.preset_name }

/-- The loop of Preset.to_effects_chain: build each effect and add_effect it
to the growing chain, one fresh id per effect. -/
def addEffectsFromConfigs (fresh : Nat) :
    EffectsChain → List EffectConfig → Nat → Except Err EffectsChain
  | c, [], _ => .ok c
  | c, cfg :: rest, i => do
    let e ← buildEffect cfg (fresh + 1 + i)
    let c' ← c.add_effect e
    addEffectsFromConfigs fresh c' rest (i + 1)

/-- Preset.to_effects_chain: a fresh chain NAMED AFTER THE PRESET, populated
from the stored descriptors through the loop above. -/
def Preset.to_effects_chain (p : Preset) (fresh : Nat) : Except Err EffectsChain := do
  let c ← EffectsChain.make fresh p.name
  addEffectsFromConfigs fresh c p.effects_chain_config.effects 0

/-- JSON values, the canonical serialized form produced by json.dumps inside
Preset.to_json and parsed back by json.loads inside Preset.from_json (the
string rendering itself round-trips these trees exactly, so serialization is
modelled at the tree level; uuid strings are modelled by their numeric id). -/
inductive J where
  | null
  | jb (b : Bool)
  | jn (q : ℚ)
  | js (s : String)
  | arr (xs : List J)
  | obj (fields : List (String × J))

/-- Encoding of a parameter value into JSON. -/
def pvalToJ : PVal → J
  | .num q => .jn q
  | .bool b => .jb b

/-- Decoding of a parameter value; anything but a number or boolean is not a
legal parameter value in the canonical form. -/
def jToPVal : J → Option PVal
  | .jn q => some (.num q)
  | .jb b => some (.bool b)
  | _ => none

/-- Option-valued map over a list, stopping at the first failure (the
element-wise parse loop of the decoder). -/
def omapM {α β : Type} (f : α → Option β) : List α → Option (List β)
  | [] => some []
  | a :: as => (f a).bind (fun b => (omapM f as).map (fun bs => b :: bs))

/-- Encoding of a parameters dict. -/
def paramsToJ (ps : List (String × PVal)) : J :=
  .obj (ps.map (fun kv => (kv.1, pvalToJ kv.2)))

/-- Decoding of a parameters dict. -/
def jToParams : J → Option (List (String × PVal))
  | .obj fs => omapM (fun kv => (jToPVal kv.2).map (fun v => (kv.1, v))) fs
  | _ => none

/-- Encoding of one effect descriptor; optional keys are written only when
present, as from_effects_chain and user configs do. -/
def effectConfigToJ (c : EffectConfig) : J :=
  .obj ([("type", .js c.type)] ++
    (match c.parameters with
     | some ps => [("parameters", paramsToJ ps)]
     | none => []) ++
    (match c.bypassed with
     | some b => [("bypassed", .jb b)]
     | none => []) ++
    (match c.preset_name with
     | some s => [("preset_name", .js s)]
     | none => []))

/-- Lookup in a decoded JSON object, dict.get on the parsed dict. -/
def getJ (fs : List (String × J)) (k : String) : Option J :=
  match fs with
  | [] => none
  | kv :: rest => if kv.1 == k then some kv.2 else getJ rest k

/-- Decoding of one effect descriptor from the canonical form. -/
def jToEffectConfig (j : J) : Option EffectConfig :=
  match j with
  | .obj fs =>
    match getJ fs "type" with
    | some (.js ty) =>
      (match getJ fs "parameters" with
       | some pj => (jToParams pj).map some
       | none => some none).bind (fun ps =>
      (match getJ fs "bypassed" with
       | some (.jb b) => some (some b)
       | some _ => none
       | none => some none).bind (fun by_ =>
      (match getJ fs "preset_name" with
       | some (.js s) => some (some s)
       | some _ => none
       | none => some none).map (fun pn =>
      { type := ty, parameters := ps, bypassed := by_, preset_name := pn })))
    | _ => none
  | _ => none

/-- Encoding of an effects_chain_config. -/
def chainConfigToJ (c : ChainConfig) : J :=
  .obj ((match c.name with
         | some n => [("name", J.js n)]
         | none => []) ++
        [("effects", .arr (c.effects.map effectConfigToJ))])

/-- Decoding of an effects_chain_config (absent "effects" decodes to []). -/
def jToChainConfig (j : J) : Option ChainConfig :=
  match j with
  | .obj fs =>
    (match getJ fs "name" with
     | some (.js n) => some (some n)
     | some _ => none
     | none => some none).bind (fun n =>
    (match getJ fs "effects" with
     | some (.arr xs) => omapM jToEffectConfig xs
     | some _ => none
     | none => some []).map (fun es => { name := n, effects := es }))
  | _ => none

/-- Preset.to_json via Preset.to_dict: the canonical record (timestamps
omitted from the model; the uuid string is modelled by the numeric id). -/
def Preset.to_json (p : Preset) : J :=
  .obj [("id", .jn p.id),
        ("name", .js p.name),
        ("description", match p.description with
                        | some d => .js d
                        | none => .null),
        ("effects_chain_config", chainConfigToJ p.effects_chain_config),
        ("tags", .arr (p.tags.map J.js)),
        ("author", match p.author with
                   | some a => .js a
                   | none => .null),
        ("version", .js p.version)]

/-- Decoding of an optional string field serialized as string-or-null. -/
def jOptStr : Option J → Option (Option String)
  | some (.js s) => some (some s)
  | some .null => some none
  | none => some none
  | some _ => none

/-- Preset.from_json: json.loads then Preset.from_dict - name and
effects_chain_config are required, the rest default; the preset is rebuilt
through the validating constructor and the stored id is then restored. -/
def Preset.from_json (j : J) : Except Err Preset :=
  match j with
  | .obj fs =>
    match getJ fs "name", getJ fs "effects_chain_config" with
    | some (.js name), some cfgJ =>
      match jToChainConfig cfgJ with
      | none => .error .invalidData
      | some cfg =>
        match jOptStr (getJ fs "description"), jOptStr (getJ fs "author") with
        | some desc, some author =>
          match (match getJ fs "tags" with
                 | some (.arr ts) => omapM (fun t => match t with
                     | .js s => some s
                     | _ => none) ts
                 | some _ => none
                 | none => some []) with
          | none => .error .invalidData
          | some tags =>
            let version := match getJ fs "version" with
                           | some (.js v) => v
                           | _ => "1.0.0"
            match Preset.make 0 name cfg desc (some tags) author version with
            | .error e => .error e
            | .ok p =>
              match getJ fs "id" with
              | some (.jn q) => .ok { p with id := q.num.toNat }
              | _ => .ok p
        | _, _ => .error .invalidData
    | _, _ => .error .invalidData
  | _ => .error .invalidData

/-- Generic association lookup with natural-number keys (manager and store
registries keyed by uuid). -/
def ngetP {β : Type} (xs : List (Nat × β)) (k : Nat) : Option β :=
  match xs with
  | [] => none
  | kv :: rest => if kv.1 == k then some kv.2 else ngetP rest k

/-- Generic association store with natural-number keys. -/
def nsetP {β : Type} (xs : List (Nat × β)) (k : Nat) (v : β) : List (Nat × β) :=
  match xs with
  | [] => [(k, v)]
  | kv :: rest => if kv.1 == k then (kv.1, v) :: rest else kv :: nsetP rest k v

/-- EffectsManager.update_chain over the `_chains` registry: ChainNotFound if
the id is absent; a provided name is ASSIGNED DIRECTLY (`chain.name = ...`,
no length validation); a provided active flag goes through
activate/deactivate. Returns the updated registry and chain. -/
def EffectsManager.update_chain (chains : List (Nat × EffectsChain)) (cid : Nat)
    (name : Option String) (active : Option Bool) :
    Except Err (List (Nat × EffectsChain) × EffectsChain) :=
  match ngetP chains cid with
  | none => .error .notFound
  | some c =>
    let c1 := match name with
              | some n => { c with name := n }
              | none => c
    let c2 := match active with
              | some b => { c1 with active := b }
              | none => c1
    .ok (nsetP chains cid c2, c2)

/-- In-memory state of PresetManager: `_presets` (id to preset) and
`_preset_names` (name to id). -/
structure PMState where
  presets : List (Nat × Preset)
  names : List (String × Nat)
deriving DecidableEq, Repr

/-- The patch dict handed to PresetManager.update_preset. -/
structure UpdateConfig where
  name : Option String
  description : Option String
  tags : Option (List String)
  effects_chain_config : Option ChainConfig
deriving DecidableEq, Repr

/-- Step three of Preset.update: the optional effects_chain_config patch
(no validation). -/
def presetUpdateCfg (p : Preset) (u : UpdateConfig) : Preset × Option Err :=
  match u.effects_chain_config with
  | some c => ({ p with effects_chain_config := c }, none)
  | none => (p, none)

/-- Step two of Preset.update: tags, validated, then the config step. -/
def presetUpdateTags (p : Preset) (u : UpdateConfig) : Preset × Option Err :=
  match u.tags with
  | some ts => if !ts.all tagOk then (p, some .badTag)
               else presetUpdateCfg { p with tags := ts } u
  | none => presetUpdateCfg p u

/-- Step one-b of Preset.update: description, validated, then tags. -/
def presetUpdateDesc (p : Preset) (u : UpdateConfig) : Preset × Option Err :=
  match u.description with
  | some d => if d.length > 500 then (p, some .badDescription)
              else presetUpdateTags { p with description := d } u
  | none => presetUpdateTags p u

/-- Preset.update: field-by-field patch with per-field validation; Python
mutates in place, so on a raise the fields already patched stay patched -
hence the partially-updated preset is returned WITH the error. -/
def Preset.update (p : Preset) (u : UpdateConfig) : Preset × Option Err :=
  match u.name with
  | some n => if n.length < 1 || n.length > 100 then (p, some .badName)
              else presetUpdateDesc { p with name := n } u
  | none => presetUpdateDesc p u

/-- The name-index maintenance block of PresetManager.update_preset, which
runs BEFORE Preset.update validates anything: on a rename, a conflict with a
different preset raises; otherwise the old name is deleted from the index and
the new name is indexed immediately. Returns the new index, or none for the
duplicate-name error. -/
def pmNameIndexStep (st : PMState) (pid : Nat) (p : Preset) (u : UpdateConfig) :
    Option (List (String × Nat)) :=
  match u.name with
  | some n =>
    if n != p.name then
      match aget st.names n with
      | some j => if j != pid then none
                  else some (aset (adel st.names p.name) n pid)
      | none => some (aset (adel st.names p.name) n pid)
    else some st.names
  | none => some st.names

/-- PresetManager.update_preset: lookup, premature name-index update, then
Preset.update (whose in-place mutations and the index update survive a
validation failure), then persistence (whose failure also leaves the mutated
in-memory state behind). `diskFails` models an _save_to_file IOError. -/
def PresetManager.update_preset (st : PMState) (pid : Nat) (u : UpdateConfig)
    (diskFails : Bool) : PMState × Except Err Preset :=
  match ngetP st.presets pid with
  | none => (st, .error .notFound)
  | some p =>
    match pmNameIndexStep st pid p u with
    | none => (st, .error .duplicateName)
    | some names' =>
      let r := Preset.update p u
      let st' : PMState := { presets := nsetP st.presets pid r.1, names := names' }
      match r.2 with
      | some e => (st', .error e)
      | none => if diskFails then (st', .error .persistence) else (st', .ok r.1)

/-- The save config dict handed to PresetManager.save_preset. -/
structure SaveConfig where
  name : Option String
  effects_chain_config : Option ChainConfig
  description : Option String
  tags : Option (List String)
  author : Option String
  version : Option String
deriving DecidableEq, Repr

/-- PresetManager.save_preset: required keys, duplicate-name check against
the index, validated construction, persistence, and only then indexing - so
a persistence failure leaves the store unindexed and unchanged. -/
def PresetManager.save_preset (st : PMState) (cfg : SaveConfig) (fresh : Nat)
    (diskFails : Bool) : PMState × Except Err Preset :=
  match cfg.name with
  | none => (st, .error .invalidData)
  | some name =>
    match cfg.effects_chain_config with
    | none => (st, .error .invalidData)
    | some chainCfg =>
      if st.names.any (fun kv => kv.1 == name) then (st, .error .duplicateName)
      else
        match Preset.make fresh name chainCfg cfg.description cfg.tags cfg.author
            (cfg.version.getD "1.0.0") with
        | .error e => (st, .error e)
        | .ok p =>
          if diskFails then (st, .error .persistence)
          else ({ presets := nsetP st.presets p.id p,
                  names := aset st.names p.name p.id }, .ok p)

/-- Mutual consistency of the two PresetManager maps: every preset's name is
indexed to its id, every indexed name belongs to the preset it maps to, and
both maps are duplicate-free (which forces name uniqueness across presets). -/
def pmConsistent (st : PMState) : Bool :=
  st.presets.all (fun ip => aget st.names ip.2.name == some ip.1) &&
  st.names.all (fun ni => match ngetP st.presets ni.2 with
    | some p => p.name == ni.1
    | none => false) &&
  decide (st.presets.map Prod.fst).Nodup &&
  decide (st.names.map Prod.fst).Nodup

/-- Reference-level model of the Python objects reachable from a preset's
effects_chain_config, used where aliasing matters (Preset.copy): a heap cell
holds either an immutable scalar or a mutable list / dict of references. -/
inductive PyObj where
  | pstr (s : String)
  | pnum (q : ℚ)
  | pbool (b : Bool)
  | pnone
  | plist (refs : List Nat)
  | pdict (entries : List (String × Nat))
deriving DecidableEq, Repr

/-- Heap: cell at address i is position i; allocation appends. -/
abbrev Heap := List PyObj

/-- Preset whose effects_chain_config is a heap reference, for the aliasing
semantics of Preset.copy. -/
structure HPreset where
  id : Nat
  name : String
  description : Option String
  cfgRef : Nat
  tags : List String
  author : Option String
  version : String
deriving DecidableEq, Repr

/-- The name Preset.copy gives the copy: `new_name if new_name else
f"{self.name} (Copy)"`. -/
def copyName (p : HPreset) (new_name : Option String) : String :=
  match new_name with
  | some n => n
  | none => p.name ++ " (Copy)"

/-- Preset.copy: the supplied name, or the original name with " (Copy)"
appended; `effects_chain_config.copy()` is Python's SHALLOW dict copy - a
fresh top-level dict cell holding the very same value references; the new
Preset revalidates name/description/tags. -/
def HPreset.copy (h : Heap) (p : HPreset) (new_name : Option String) (fresh : Nat) :
    Except Err (Heap × HPreset) :=
  let copy_name := copyName p new_name
  match h[p.cfgRef]? with
  | some (.pdict entries) =>
    if copy_name.length < 1 || copy_name.length > 100 then .error .badName
    else if (match p.description with
             | some d => decide (d.length > 500)
             | none => false) then .error .badDescription
    else if !(p.tags.all tagOk) then .error .badTag
    else .ok (h ++ [.pdict entries],
              { id := fresh, name := copy_name, description := p.description,
                cfgRef := h.length, tags := p.tags, author := p.author,
                version := p.version })
  | _ => .error .invalidData

/-- In-place `list.append(x)` on the heap cell at `r`. -/
def heapListAppend (h : Heap) (r : Nat) (x : Nat) : Option Heap :=
  match h[r]? with
  | some (.plist xs) => some (h.set r (.plist (xs ++ [x])))
  | _ => none

/-- In-place `d[k] = ref` on the dict cell at `r`. -/
def heapDictSet (h : Heap) (r : Nat) (k : String) (v : Nat) : Option Heap :=
  match h[r]? with
  | some (.pdict es) => some (h.set r (.pdict (aset es k v)))
  | _ => none

/-- Read out the value tree reachable from a reference (fuel-bounded; Python
configs are acyclic). Two configs are the same observable value exactly when
they materialize to the same tree. -/
def materialize : Nat → Heap → Nat → Option J
  | 0, _, _ => none
  | fuel + 1, h, r =>
    match h[r]? with
    | some (.pstr s) => some (.js s)
    | some (.pnum q) => some (.jn q)
    | some (.pbool b) => some (.jb b)
    | some .pnone => some .null
    | some (.plist rs) => (rs.mapM (materialize fuel h)).map .arr
    | some (.pdict es) =>
      (es.mapM (fun kv => (materialize fuel h kv.2).map (fun j => (kv.1, j)))).map .obj
    | none => none

/-- Observable length of the "effects" list of a materialized config. -/
def jEffectsCount : Option J → Option Nat
  | some (.obj fs) =>
    match getJ fs "effects" with
    | some (.arr xs) => some xs.length
    | _ => none
  | _ => none

/-- One reconstructed effect agrees with its stored descriptor in kind,
parameters (Python dict equality) and bypassed flag. -/
def matchesEffectB (e : AudioEffect) (cfg : EffectConfig) : Bool :=
  (parseEffectType cfg.type == some e.type) &&
  dictEqB e.parameters (cfg.parameters.getD []) &&
  (e.bypassed == cfg.bypassed.getD false)

/-- A reconstructed chain agrees with a stored config: same number of
effects, each matching its descriptor, in order. -/
def matchesChainB (c : EffectsChain) (cfg : ChainConfig) : Bool :=
  (c.effects.length == cfg.effects.length) &&
  (List.zip c.effects cfg.effects).all (fun pq => matchesEffectB pq.1 pq.2)

/-- A two-effect chain built through the public operations: BOOST (id 1)
then DELAY (id 2) added to a fresh chain. -/
def demoChain : Except Err EffectsChain := do
  let c ← EffectsChain.make 0 "T"
  let e1 ← (AudioEffect.create .BOOST [] 1).mapError Err.param
  let e2 ← (AudioEffect.create .DELAY [] 2).mapError Err.param
  let c ← c.add_effect e1
  c.add_effect e2

/-- C2. The claimed invariant - after any sequence of add/remove/reorder no
two effects share an id - is broken by the code: after adding effects 1 and 2,
reorder_effects [1, 1] passes the length-only check, silently drops effect 2,
and leaves the chain with two entries bearing id 1 (in Python both entries
are the same object, so the position invariant is corrupted as well). -/
theorem c2_reorder_duplicate_breaks_id_uniqueness :
    (demoChain.bind (fun c => c.reorder_effects [1, 1])).map
      (fun c : EffectsChain => c.effects.map (fun e : AudioEffect => e.id)) =
      .ok [1, 1] ∧
    ¬ List.Nodup [1, 1] := by
  constructor
  · decide
  · decide

/-- C3. The claim that any id list whose multiset differs from current
membership always fails with OrderMismatch is broken by the code: [1, 1] is
not a permutation of the chain's ids [1, 2], yet reorder_effects accepts it
(the only guard is the length comparison plus per-id membership, which a
duplicate passes). -/
theorem c3_reorder_duplicate_accepted :
    ¬ List.Perm [1, 1] [1, 2] ∧
    (demoChain.bind (fun c => c.reorder_effects [1, 1])).isOk = true := by
  constructor
  · decide
  · decide

/-- The 101-character name used to exhibit the update_preset index bug. -/
def longName101 : String := String.mk (List.replicate 101 'a')

/-- A one-preset store in the consistent state: preset id 1 named "A". -/
def pmDemo : PMState :=
  { presets := [(1, { id := 1, name := "A", description := none,
                      effects_chain_config := { name := none, effects := [] },
                      tags := [], author := none, version := "1.0.0" })],
    names := [("A", 1)] }

/-- C4. The claimed store invariant - name index and id map mutually
consistent after every operation, including failing ones - is broken by the
code: update_preset re-indexes the new name BEFORE Preset.update validates
it, so updating preset 1 ("A") to a 101-character name raises, yet leaves
the index holding the invalid name while the preset still bears "A". -/
theorem c4_update_preset_invalid_name_breaks_index :
    pmConsistent pmDemo = true ∧
    (PresetManager.update_preset pmDemo 1
      { name := some longName101, description := none, tags := none,
        effects_chain_config := none } false).2 = .error .badName ∧
    pmConsistent (PresetManager.update_preset pmDemo 1
      { name := some longName101, description := none, tags := none,
        effects_chain_config := none } false).1 = false := by
  refine ⟨by decide, by decide, by decide⟩

/-- The 51-character name used against update_chain. -/
def longName51 : String := String.mk (List.replicate 51 'a')

/-- A registry holding one chain, id 1, validly named "A". -/
def mgrDemo : List (Nat × EffectsChain) :=
  [(1, { id := 1, name := "A", effects := [], active := false })]

/-- C6 counterexample. The claim that updateChain re-validates the name and
rejects names longer than 50 characters is false: the code assigns
`chain.name = update_config["name"]` with no check, so a 51-character name is
applied and the chain's name changes. -/
theorem c6_counterexample_long_name_applied :
    longName51.length = 51 ∧
    (EffectsManager.update_chain mgrDemo 1 (some longName51) none).map
      (fun r => r.2.name) = .ok longName51 := by
  refine ⟨by decide, by decide⟩

/-- C6 amended: EffectsManager.update_chain applies any provided name to a
stored chain without re-validating it - the call succeeds and the chain's
name becomes exactly the supplied string, whatever its length; the 1-50
character rule is enforced only at chain construction. -/
theorem c6_update_chain_applies_any_name (chains : List (Nat × EffectsChain))
    (cid : Nat) (c : EffectsChain) (n : String)
    (h : ngetP chains cid = some c) :
    EffectsManager.update_chain chains cid (some n) none =
      .ok (nsetP chains cid { c with name := n }, { c with name := n }) := by
  simp [EffectsManager.update_chain, h]

/-- C6 witness: the amended behaviour at a concrete input - the stored chain
named "A" ends up named with the 51-character string. -/
theorem c6_update_chain_applies_any_name_witness :
    ngetP mgrDemo 1 = some { id := 1, name := "A", effects := [], active := false } ∧
    EffectsManager.update_chain mgrDemo 1 (some longName51) none =
      .ok (nsetP mgrDemo 1 { id := 1, name := longName51, effects := [], active := false },
           { id := 1, name := longName51, effects := [], active := false }) := by
  exact ⟨by decide,
    c6_update_chain_applies_any_name mgrDemo 1
      { id := 1, name := "A", effects := [], active := false } longName51 (by decide)⟩

/-- A serialized chain dict with nine BOOST descriptors: ids 5,5,7,...,13
(one duplicate) and every stored position 42. -/
def c10Dict : ChainDict :=
  { id := some 50, name := "Nine", active := some false,
    effects := [5, 5, 7, 8, 9, 10, 11, 12, 13].map (fun i =>
      { id := some i, type := "BOOST", parameters := none,
        bypassed := none, position := some 42, preset_name := none }) }

/-- C10. EffectsChain.from_dict appends stored descriptors directly, without
add_effect's capacity, duplicate-id or renumbering checks: on this input it
returns a chain with nine effects (over the cap of 8), a duplicated id, and
every position 42 instead of the index. -/
theorem c10_from_dict_violates_invariants :
    (EffectsChain.from_dict c10Dict 99).map (fun c : EffectsChain =>
      (c.effects.length,
       c.effects.map (fun e : AudioEffect => e.id),
       c.effects.map (fun e : AudioEffect => e.position))) =
      .ok (9, [5, 5, 7, 8, 9, 10, 11, 12, 13], List.replicate 9 (42 : Int)) ∧
    MAX_EFFECTS < 9 ∧
    ¬ List.Nodup [5, 5, 7, 8, 9, 10, 11, 12, 13] ∧
    List.replicate 9 (42 : Int) ≠ (List.range 9).map (fun i => (i : Int)) := by
  refine ⟨by decide, by decide, by decide, by decide⟩

/-- A preset whose stored effect descriptor has a PARTIAL parameters dict:
only gain_db is present. -/
def c1Partial : Preset :=
  { id := 7, name := "P", description := none,
    effects_chain_config :=
      { name := some "X",
        effects := [{ type := "BOOST", parameters := some [("gain_db", .num 1)],
                      bypassed := some false, preset_name := none }] },
    tags := [], author := none, version := "1.0.0" }

/-- C1 counterexample. The round-trip law fails as stated for presets with a
partial parameters dict: serializing, deserializing and reconstructing
succeeds, but the rebuilt BOOST effect carries the schema default tone 0.5
that the stored descriptor never had, so the chain does NOT match the
preset's effects_chain_config exactly in parameters. -/
theorem c1_counterexample_incomplete_parameters :
    ((Preset.from_json (Preset.to_json c1Partial)).bind
       (fun p => p.to_effects_chain 100)).map
      (fun c : EffectsChain => matchesChainB c c1Partial.effects_chain_config) =
      .ok false := by decide

/-- A concrete heap holding one preset's effects_chain_config: cell 5 is the
config dict {"name": ref 4, "effects": ref 3}, cell 3 the one-element effects
list, cell 2 the BOOST descriptor, cells 0/1/4 its leaves. -/
def c5Heap : Heap :=
  [.pstr "BOOST",
   .pdict [],
   .pdict [("type", 0), ("parameters", 1)],
   .plist [2],
   .pstr "X",
   .pdict [("name", 4), ("effects", 3)]]

/-- The preset owning config cell 5 on `c5Heap`. -/
def c5P : HPreset :=
  { id := 1, name := "Rock", description := none, cfgRef := 5,
    tags := [], author := none, version := "1.0.0" }

/-- C5 counterexample. `Preset.copy` deep-copies nothing below the top-level
dict: the copy's config holds the SAME "effects" list reference (cell 3), so
appending to the copy's effects list (the Python
`copy.effects_chain_config["effects"].append(...)`) changes the original
preset's observable config from one effect to two - refuting "mutating the
copy's effects_chain_config never changes the original". -/
theorem c5_counterexample_nested_mutation_leaks :
    jEffectsCount (materialize 10 c5Heap c5P.cfgRef) = some 1 ∧
    (HPreset.copy c5Heap c5P none 2).map
      (fun hq => (hq.2.name, hq.2.id, hq.2.cfgRef, hq.1[hq.2.cfgRef]?)) =
      .ok ("Rock (Copy)", 2, 6, some (.pdict [("name", 4), ("effects", 3)])) ∧
    (HPreset.copy c5Heap c5P none 2).map
      (fun hq => (heapListAppend hq.1 3 2).map
        (fun h2 => jEffectsCount (materialize 10 h2 c5P.cfgRef))) =
      .ok (some (some 2)) := by
  refine ⟨by decide, by decide, by decide⟩

/-- C5 amended: Preset.copy yields a new identity named after the supplied
newName when given and the original name + " (Copy)" otherwise, and the
chainConfig is a SHALLOW copy - a freshly allocated top-level dict (so
re-binding a top-level entry of the copy's config leaves the original's
config cell untouched) whose entries are the very same value references as
the original's. -/
theorem c5_copy_shallow (h : Heap) (p : HPreset) (new_name : Option String)
    (fresh : Nat) (es : List (String × Nat))
    (hcell : h[p.cfgRef]? = some (.pdict es))
    (hlen1 : 1 ≤ (copyName p new_name).length)
    (hlen2 : (copyName p new_name).length ≤ 100)
    (hdesc : (match p.description with
              | some d => decide (d.length > 500)
              | none => false) = false)
    (htags : p.tags.all tagOk = true) :
    HPreset.copy h p new_name fresh =
      .ok (h ++ [.pdict es],
           { id := fresh, name := copyName p new_name, description := p.description,
             cfgRef := h.length, tags := p.tags, author := p.author,
             version := p.version }) ∧
    p.cfgRef ≠ h.length ∧
    ∀ k v, (heapDictSet (h ++ [.pdict es]) h.length k v).map
      (fun h2 => h2[p.cfgRef]?) = some (some (.pdict es)) := by
  have hlt : p.cfgRef < h.length := by
    have := List.getElem?_eq_some.mp hcell
    exact this.1
  have hcond : ((copyName p new_name).length < 1 ||
      (copyName p new_name).length > 100) = false := by
    simp only [Bool.or_eq_false_iff, decide_eq_false_iff_not, not_lt]
    omega
  refine ⟨?_, Nat.ne_of_lt hlt, ?_⟩
  · simp only [HPreset.copy, hcell, hcond, hdesc, htags, Bool.false_eq_true,
      if_false, Bool.not_true]
  · intro k v
    have hnew : (h ++ [PyObj.pdict es])[h.length]? = some (.pdict es) :=
      List.getElem?_concat_length h (PyObj.pdict es)
    simp only [heapDictSet, hnew, Option.map_some, Option.map_some']
    have hset : ((h ++ [PyObj.pdict es]).set h.length
        (.pdict (aset es k v)))[p.cfgRef]? = (h ++ [PyObj.pdict es])[p.cfgRef]? := by
      exact List.getElem?_set_ne (Nat.ne_of_lt hlt).symm
    rw [hset, List.getElem?_append_left hlt, hcell]

/-- C5 witness: the shallow-copy behaviour at the concrete heap, in both
naming branches - copying the "Rock" preset with newName "Funk" yields a
preset named "Funk", copying it with no newName yields "Rock (Copy)", each
with a fresh id and a fresh config cell 6 holding the original's entry
references; re-binding "name" in the copy's dict leaves the original's
cell 5 unchanged. -/
theorem c5_copy_shallow_witness :
    c5Heap[c5P.cfgRef]? = some (.pdict [("name", 4), ("effects", 3)]) ∧
    (HPreset.copy c5Heap c5P (some "Funk") 2 =
      .ok (c5Heap ++ [.pdict [("name", 4), ("effects", 3)]],
           { id := 2, name := copyName c5P (some "Funk"), description := c5P.description,
             cfgRef := c5Heap.length, tags := c5P.tags, author := c5P.author,
             version := c5P.version }) ∧
     copyName c5P (some "Funk") = "Funk") ∧
    (HPreset.copy c5Heap c5P none 3 =
      .ok (c5Heap ++ [.pdict [("name", 4), ("effects", 3)]],
           { id := 3, name := copyName c5P none, description := c5P.description,
             cfgRef := c5Heap.length, tags := c5P.tags, author := c5P.author,
             version := c5P.version }) ∧
     copyName c5P none = "Rock (Copy)") ∧
    c5P.cfgRef ≠ c5Heap.length ∧
    (heapDictSet (c5Heap ++ [.pdict [("name", 4), ("effects", 3)]]) c5Heap.length
       "name" 0).map (fun h2 => h2[c5P.cfgRef]?) =
      some (some (.pdict [("name", 4), ("effects", 3)])) := by
  have Hs := c5_copy_shallow c5Heap c5P (some "Funk") 2 [("name", 4), ("effects", 3)]
    (by decide) (by decide) (by decide) (by decide) (by decide)
  have Hn := c5_copy_shallow c5Heap c5P none 3 [("name", 4), ("effects", 3)]
    (by decide) (by decide) (by decide) (by decide) (by decide)
  exact ⟨by decide, ⟨Hs.1, by decide⟩, ⟨Hn.1, by decide⟩, Hs.2.1, Hs.2.2 "name" 0⟩

/-- applyUpdates restricted to its success path: apply each valid entry,
skip invalid ones. On an all-valid prefix this is exactly the state
applyUpdates has built when it aborts. -/
def applyValid (ty : EffectType) (ps : List (String × PVal)) :
    List (String × PVal) → List (String × PVal)
  | [] => ps
  | (k, v) :: rest =>
    match validateParam ty k v with
    | .ok v' => applyValid ty (aset ps k v') rest
    | .error _ => applyValid ty ps rest

/-- The error carried by an Except, if any. -/
def errOf {ε α : Type} : Except ε α → Option ε
  | .error e => some e
  | .ok _ => none

theorem aget_aset_ne {β : Type} (xs : List (String × β)) (k k' : String) (v : β)
    (h : k' ≠ k) :
    aget (aset xs k v) k' = aget xs k' := by
  induction xs with
  | nil =>
    have hkk : (k == k') = false := by
      simp only [beq_eq_false_iff_ne, ne_eq]
      exact fun hh => h hh.symm
    simp [aset, aget, hkk]
  | cons kv rest ih =>
    by_cases hk : kv.1 = k
    · have h2 : kv.1 ≠ k' := fun hh => h (hh.symm.trans hk)
      simp [aset, aget, hk, h2, Ne.symm h]
    · by_cases hk' : kv.1 = k'
      · simp [aset, aget, hk, hk', h]
      · simp [aset, aget, hk, hk', ih]

theorem aget_aset_self {β : Type} (xs : List (String × β)) (k : String) (v : β) :
    aget (aset xs k v) k = some v := by
  induction xs with
  | nil => simp [aset, aget]
  | cons kv rest ih =>
    by_cases hk : kv.1 = k
    · simp [aset, aget, hk]
    · simp [aset, aget, hk, ih]

theorem aget_applyValid_not_mem (ty : EffectType) (ps us : List (String × PVal))
    (k : String) (hk : k ∉ us.map Prod.fst) :
    aget (applyValid ty ps us) k = aget ps k := by
  induction us generalizing ps with
  | nil => rfl
  | cons u rest ih =>
    obtain ⟨a, b⟩ := u
    simp only [List.map_cons, List.mem_cons, not_or] at hk
    cases hv : validateParam ty a b with
    | ok v' =>
      simp only [applyValid, hv]
      rw [ih (aset ps a v') hk.2, aget_aset_ne ps a k v' hk.1]
    | error e =>
      simp only [applyValid, hv]
      exact ih ps hk.2

theorem applyUpdates_split (ty : EffectType) (ps us : List (String × PVal)) (j : Nat)
    (hj : j < us.length)
    (hpre : ∀ i (hi : i < j),
      (validateParam ty (us.get ⟨i, Nat.lt_trans hi hj⟩).1
        (us.get ⟨i, Nat.lt_trans hi hj⟩).2).isOk = true)
    (hfail : (validateParam ty (us.get ⟨j, hj⟩).1 (us.get ⟨j, hj⟩).2).isOk = false) :
    applyUpdates ty ps us =
      (applyValid ty ps (us.take j),
       errOf (validateParam ty (us.get ⟨j, hj⟩).1 (us.get ⟨j, hj⟩).2)) := by
  induction us generalizing ps j with
  | nil => exact absurd hj (by simp)
  | cons u rest ih =>
    obtain ⟨a, b⟩ := u
    cases j with
    | zero =>
      cases hv : validateParam ty a b with
      | ok v' =>
        rw [show (((a, b) :: rest).get ⟨0, hj⟩) = (a, b) from rfl, hv] at hfail
        simp [Except.isOk, Except.toBool] at hfail
      | error e =>
        rw [show (((a, b) :: rest).get ⟨0, hj⟩) = (a, b) from rfl]
        simp [applyUpdates, hv, applyValid, errOf]
    | succ j' =>
      have h0 : (validateParam ty a b).isOk = true := by
        have := hpre 0 (Nat.succ_pos j')
        simpa using this
      cases hv : validateParam ty a b with
      | error e => rw [hv] at h0; simp [Except.isOk, Except.toBool] at h0
      | ok v' =>
        have hj' : j' < rest.length := Nat.lt_of_succ_lt_succ hj
        have hrec := ih (aset ps a v') j' hj'
          (fun i hi => hpre (i + 1) (Nat.succ_lt_succ hi))
          hfail
        simpa [applyUpdates, hv, applyValid] using hrec

/-- C7. update_parameters validates key by key and aborts at the first
invalid key: the state afterwards is exactly the original parameters with
only the valid prefix applied (so every key outside that prefix, in
particular the failing key and all later ones, keeps its previous value),
and the validation error of the failing key is raised. -/
theorem c7_update_parameters_early_keys_applied (ty : EffectType)
    (ps us : List (String × PVal)) (j : Nat)
    (hj : j < us.length)
    (hpre : ∀ i (hi : i < j),
      (validateParam ty (us.get ⟨i, Nat.lt_trans hi hj⟩).1
        (us.get ⟨i, Nat.lt_trans hi hj⟩).2).isOk = true)
    (hfail : (validateParam ty (us.get ⟨j, hj⟩).1 (us.get ⟨j, hj⟩).2).isOk = false) :
    applyUpdates ty ps us =
      (applyValid ty ps (us.take j),
       errOf (validateParam ty (us.get ⟨j, hj⟩).1 (us.get ⟨j, hj⟩).2)) ∧
    (applyUpdates ty ps us).2.isSome = true ∧
    (∀ k, k ∉ (us.take j).map Prod.fst →
      aget (applyUpdates ty ps us).1 k = aget ps k) := by
  have heq := applyUpdates_split ty ps us j hj hpre hfail
  refine ⟨heq, ?_, ?_⟩
  · rw [heq]
    cases hv : validateParam ty (us.get ⟨j, hj⟩).1 (us.get ⟨j, hj⟩).2 with
    | ok v' => rw [hv] at hfail; simp [Except.isOk, Except.toBool] at hfail
    | error e => simp [errOf]
  · intro k hk
    rw [heq]
    exact aget_applyValid_not_mem ty ps (us.take j) k hk

/-- C7 witness: the Boost scenario - a single update gain_db := 31.0 on an
effect whose gain_db is 10.0 raises the out-of-range error and leaves
gain_db at 10.0 (and the whole parameter dict unchanged). -/
theorem c7_update_parameters_early_keys_applied_witness :
    (0 : Nat) < 1 ∧
    applyUpdates .BOOST
        [("gain_db", PVal.num 10), ("tone", PVal.num (Rat.divInt 1 2))]
        [("gain_db", PVal.num 31)] =
      ([("gain_db", PVal.num 10), ("tone", PVal.num (Rat.divInt 1 2))],
       some (.outOfRange "gain_db")) ∧
    aget (applyUpdates .BOOST
        [("gain_db", PVal.num 10), ("tone", PVal.num (Rat.divInt 1 2))]
        [("gain_db", PVal.num 31)]).1 "gain_db" = some (PVal.num 10) := by
  have H := c7_update_parameters_early_keys_applied .BOOST
    [("gain_db", PVal.num 10), ("tone", PVal.num (Rat.divInt 1 2))]
    [("gain_db", PVal.num 31)] 0 (by decide)
    (fun i hi => absurd hi (Nat.not_lt_zero i)) (by decide)
  refine ⟨Nat.zero_lt_one, H.1.trans (by decide), ?_⟩
  rw [H.2.2 "gain_db" (by decide)]
  decide

theorem make_name (fresh : Nat) (n : String) (c : EffectsChain)
    (h : EffectsChain.make fresh n = .ok c) : c.name = n := by
  unfold EffectsChain.make at h
  split at h
  · exact absurd h (by simp)
  · cases h
    rfl

theorem add_effect_name (c : EffectsChain) (e : AudioEffect) (c' : EffectsChain)
    (h : c.add_effect e = .ok c') : c'.name = c.name := by
  unfold EffectsChain.add_effect at h
  split at h
  · exact absurd h (by simp)
  · split at h
    · exact absurd h (by simp)
    · cases h
      rfl

theorem addEffects_name (fresh : Nat) (cfgs : List EffectConfig) :
    ∀ c i c', addEffectsFromConfigs fresh c cfgs i = .ok c' → c'.name = c.name := by
  induction cfgs with
  | nil =>
    intro c i c' h
    cases h
    rfl
  | cons cfg rest ih =>
    intro c i c' h
    simp only [addEffectsFromConfigs, bind, Except.bind] at h
    cases hb : buildEffect cfg (fresh + 1 + i) with
    | error e => rw [hb] at h; exact absurd h (by simp)
    | ok e =>
      rw [hb] at h
      dsimp only at h
      cases ha : c.add_effect e with
      | error e2 => rw [ha] at h; exact absurd h (by simp)
      | ok c1 =>
        rw [ha] at h
        dsimp only at h
        exact (ih c1 (i + 1) c' h).trans (add_effect_name c e c1 ha)

/-- C9. Whenever Preset.to_effects_chain succeeds, the resulting chain is
named after the preset itself, never after the chain name snapshotted inside
effects_chain_config. -/
theorem c9_to_effects_chain_uses_preset_name (p : Preset) (fresh : Nat)
    (c : EffectsChain) (h : p.to_effects_chain fresh = .ok c) :
    c.name = p.name := by
  unfold Preset.to_effects_chain at h
  simp only [bind, Except.bind] at h
  cases hm : EffectsChain.make fresh p.name with
  | error e => rw [hm] at h; exact absurd h (by simp)
  | ok c0 =>
    rw [hm] at h
    exact (addEffects_name fresh p.effects_chain_config.effects c0 0 c h).trans
      (make_name fresh p.name c0 hm)

/-- A preset whose snapshotted chain name ("Old Chain Name") differs from the
preset's own name ("My Lead"). -/
def c9Demo : Preset :=
  { id := 9, name := "My Lead", description := none,
    effects_chain_config := { name := some "Old Chain Name", effects := [] },
    tags := [], author := none, version := "1.0.0" }

/-- C9 witness: reconstructing from the preset above yields a chain named
"My Lead", not "Old Chain Name". -/
theorem c9_to_effects_chain_uses_preset_name_witness :
    Preset.to_effects_chain c9Demo 3 =
      .ok { id := 3, name := "My Lead", effects := [], active := false } ∧
    ({ id := 3, name := "My Lead", effects := [], active := false } : EffectsChain).name =
      c9Demo.name := by
  refine ⟨by decide, ?_⟩
  exact c9_to_effects_chain_uses_preset_name c9Demo 3
    { id := 3, name := "My Lead", effects := [], active := false } (by decide)

theorem aget_some_mem {β : Type} (xs : List (String × β)) (k : String) (v : β)
    (h : aget xs k = some v) : (k, v) ∈ xs := by
  induction xs with
  | nil => exact absurd h (by simp [aget])
  | cons kv rest ih =>
    by_cases hk : kv.1 = k
    · simp only [aget, hk, beq_self_eq_true, if_true, Option.some.injEq] at h
      subst hk
      subst h
      exact List.mem_cons_self kv rest
    · have hkb : (kv.1 == k) = false := by simp [hk]
      simp only [aget, hkb, Bool.false_eq_true, if_false] at h
      exact List.mem_cons_of_mem kv (ih h)

theorem aget_none_of_not_mem {β : Type} (xs : List (String × β)) (k : String)
    (h : k ∉ xs.map Prod.fst) : aget xs k = none := by
  induction xs with
  | nil => rfl
  | cons kv rest ih =>
    simp only [List.map_cons, List.mem_cons, not_or] at h
    have hkb : (kv.1 == k) = false := by
      simp only [beq_eq_false_iff_ne, ne_eq]
      exact fun hh => h.1 hh.symm
    simp only [aget, hkb, Bool.false_eq_true, if_false]
    exact ih h.2

theorem aget_map_snd {β γ : Type} (xs : List (String × β)) (f : β → γ) (k : String) :
    aget (xs.map (fun kv => (kv.1, f kv.2))) k = (aget xs k).map f := by
  induction xs with
  | nil => rfl
  | cons kv rest ih =>
    by_cases hk : kv.1 = k
    · simp [aget, hk]
    · simp [aget, hk, ih]

theorem aget_of_mem_nodup {β : Type} (xs : List (String × β)) (kv : String × β)
    (hmem : kv ∈ xs) (hnd : (xs.map Prod.fst).Nodup) : aget xs kv.1 = some kv.2 := by
  induction xs with
  | nil => exact absurd hmem (by simp)
  | cons hd rest ih =>
    simp only [List.map_cons, List.nodup_cons] at hnd
    rcases List.mem_cons.mp hmem with heq | htail
    · subst heq
      simp [aget]
    · have hne : hd.1 ≠ kv.1 := by
        intro hh
        exact hnd.1 (hh ▸ (List.mem_map.mpr ⟨kv, htail, rfl⟩))
      have hkb : (hd.1 == kv.1) = false := by simp [hne]
      simp only [aget, hkb, Bool.false_eq_true, if_false]
      exact ih htail hnd.2

/-- Every "bool"-typed row of the parameter schemas has bounds 0 and 1. -/
theorem bool_rows (ty : EffectType) :
    ∀ nd ∈ PARAMETER_DEFINITIONS ty, nd.2.units = "bool" →
      nd.2.min = 0 ∧ nd.2.max = 1 := by
  cases ty <;> decide

/-- Every schema default lies within its own bounds. -/
theorem defaults_in_range (ty : EffectType) :
    ∀ nd ∈ PARAMETER_DEFINITIONS ty,
      nd.2.min ≤ pyNum nd.2.default ∧ pyNum nd.2.default ≤ nd.2.max := by
  cases ty <;> decide

/-- The parameter schemas have duplicate-free field names. -/
theorem schema_keys_nodup (ty : EffectType) :
    ((PARAMETER_DEFINITIONS ty).map Prod.fst).Nodup := by
  cases ty <;> decide

theorem validate_ok_parts (ty : EffectType) (k : String) (v w : PVal)
    (h : validateParam ty k v = .ok w) :
    ∃ d, aget (PARAMETER_DEFINITIONS ty) k = some d ∧ w = coerceVal d v := by
  unfold validateParam at h
  cases hd : aget (PARAMETER_DEFINITIONS ty) k with
  | none => rw [hd] at h; exact absurd h (by simp)
  | some d =>
    rw [hd] at h
    dsimp only at h
    refine ⟨d, rfl, ?_⟩
    unfold coerceVal
    by_cases hu : (d.units == "bool") = true
    · rw [if_pos hu] at h
      rw [if_pos hu]
      split at h
      · cases h; rfl
      · exact absurd h (by simp)
    · rw [if_neg hu] at h
      rw [if_neg hu]
      split at h
      · exact absurd h (by simp)
      · cases h; rfl

theorem validate_ok_range (ty : EffectType) (k : String) (v w : PVal)
    (h : validateParam ty k v = .ok w) :
    ∀ d, aget (PARAMETER_DEFINITIONS ty) k = some d →
      d.min ≤ pyNum w ∧ pyNum w ≤ d.max := by
  intro d hd
  unfold validateParam at h
  rw [hd] at h
  dsimp only at h
  by_cases hu : (d.units == "bool") = true
  · rw [if_pos hu] at h
    have hrow := bool_rows ty (k, d) (aget_some_mem _ _ _ hd) (by simpa using hu)
    split at h
    · cases h
      obtain ⟨h0, h1⟩ := hrow
      simp only at h0 h1
      rw [h0, h1]
      simp only [pyNum]
      refine ⟨?_, ?_⟩ <;> split <;> norm_num
    · exact absurd h (by simp)
  · rw [if_neg hu] at h
    split at h
    · exact absurd h (by simp)
    · next hrange =>
      cases h
      simp only [Bool.not_eq_true, Bool.or_eq_false_iff, decide_eq_false_iff_not,
        not_lt, gt_iff_lt] at hrange
      exact ⟨hrange.1, hrange.2⟩

theorem validate_ok_key_mem (ty : EffectType) (k : String) (v w : PVal)
    (h : validateParam ty k v = .ok w) :
    k ∈ (PARAMETER_DEFINITIONS ty).map Prod.fst := by
  obtain ⟨d, hd, _⟩ := validate_ok_parts ty k v w h
  exact List.mem_map.mpr ⟨(k, d), aget_some_mem _ _ _ hd, rfl⟩

theorem isOk_exists_ok {ε α : Type} (x : Except ε α) (h : x.isOk = true) :
    ∃ a, x = .ok a := by
  cases x with
  | ok a => exact ⟨a, rfl⟩
  | error e => simp [Except.isOk, Except.toBool] at h

theorem applyUpdates_all_ok (ty : EffectType) (us : List (String × PVal)) :
    ∀ ps, (∀ kv ∈ us, (validateParam ty kv.1 kv.2).isOk = true) →
      applyUpdates ty ps us = (applyValid ty ps us, none) := by
  induction us with
  | nil => intro ps _; rfl
  | cons u rest ih =>
    intro ps h
    obtain ⟨a, b⟩ := u
    obtain ⟨w, hw⟩ := isOk_exists_ok _ (h (a, b) (List.mem_cons_self _ _))
    simp only [applyUpdates, applyValid, hw]
    exact ih (aset ps a w) (fun kv hkv => h kv (List.mem_cons_of_mem _ hkv))

theorem keys_aset_mem {β : Type} (xs : List (String × β)) (k : String) (v : β)
    (h : k ∈ xs.map Prod.fst) :
    (aset xs k v).map Prod.fst = xs.map Prod.fst := by
  induction xs with
  | nil => exact absurd h (by simp)
  | cons kv rest ih =>
    by_cases hk : kv.1 = k
    · simp [aset, hk]
    · simp only [List.map_cons, List.mem_cons] at h
      rcases h with heq | htail
      · exact absurd heq.symm hk
      · simp [aset, hk, ih htail]

theorem applyValid_keys (ty : EffectType) (us : List (String × PVal)) :
    ∀ ps, (∀ kv ∈ us, (validateParam ty kv.1 kv.2).isOk = true) →
      ps.map Prod.fst = (PARAMETER_DEFINITIONS ty).map Prod.fst →
      (applyValid ty ps us).map Prod.fst = (PARAMETER_DEFINITIONS ty).map Prod.fst := by
  induction us with
  | nil => intro ps _ hkeys; exact hkeys
  | cons u rest ih =>
    intro ps h hkeys
    obtain ⟨a, b⟩ := u
    obtain ⟨w, hw⟩ := isOk_exists_ok _ (h (a, b) (List.mem_cons_self _ _))
    simp only [applyValid, hw]
    refine ih (aset ps a w) (fun kv hkv => h kv (List.mem_cons_of_mem _ hkv)) ?_
    rw [keys_aset_mem ps a w (hkeys ▸ validate_ok_key_mem ty a b w hw)]
    exact hkeys

theorem applyValid_aget_mem (ty : EffectType) (us : List (String × PVal))
    (hnd : (us.map Prod.fst).Nodup)
    (hvalid : ∀ kv ∈ us, (validateParam ty kv.1 kv.2).isOk = true) :
    ∀ ps, ∀ kv ∈ us, ∃ w, validateParam ty kv.1 kv.2 = .ok w ∧
      aget (applyValid ty ps us) kv.1 = some w := by
  induction us with
  | nil => intro ps kv hkv; exact absurd hkv (by simp)
  | cons u rest ih =>
    intro ps kv hkv
    obtain ⟨a, b⟩ := u
    obtain ⟨w, hw⟩ := isOk_exists_ok _ (hvalid (a, b) (List.mem_cons_self _ _))
    simp only [List.map_cons, List.nodup_cons] at hnd
    rcases List.mem_cons.mp hkv with heq | htail
    · subst heq
      refine ⟨w, hw, ?_⟩
      simp only [applyValid, hw]
      have hnotin : a ∉ rest.map Prod.fst := hnd.1
      rw [aget_applyValid_not_mem ty (aset ps a w) rest a hnotin]
      exact aget_aset_self ps a w
    · obtain ⟨w2, hw2, hget⟩ := ih hnd.2
        (fun x hx => hvalid x (List.mem_cons_of_mem _ hx)) (aset ps a w) kv htail
      refine ⟨w2, hw2, ?_⟩
      simp only [applyValid, hw]
      exact hget

theorem defaultParams_keys (ty : EffectType) :
    (defaultParams ty).map Prod.fst = (PARAMETER_DEFINITIONS ty).map Prod.fst := by
  cases ty <;> rfl

theorem aget_defaultParams (ty : EffectType) (nd : String × ParamDef)
    (hmem : nd ∈ PARAMETER_DEFINITIONS ty) :
    aget (defaultParams ty) nd.1 = some nd.2.default := by
  unfold defaultParams
  rw [aget_map_snd (PARAMETER_DEFINITIONS ty) (fun d => d.default) nd.1,
    aget_of_mem_nodup (PARAMETER_DEFINITIONS ty) nd hmem (schema_keys_nodup ty)]
  rfl

theorem applyValid_defaults_aget (ty : EffectType) (O : List (String × PVal))
    (hnd : (O.map Prod.fst).Nodup)
    (hvalid : ∀ kv ∈ O, (validateParam ty kv.1 kv.2).isOk = true) :
    ∀ nd ∈ PARAMETER_DEFINITIONS ty,
      aget (applyValid ty (defaultParams ty) O) nd.1 =
        some (match aget O nd.1 with
              | some v => coerceVal nd.2 v
              | none => nd.2.default) := by
  intro nd hnd2
  by_cases hmem : nd.1 ∈ O.map Prod.fst
  · obtain ⟨kv, hkv, hkey⟩ := List.mem_map.mp hmem
    obtain ⟨w, hw, hget⟩ :=
      applyValid_aget_mem ty O hnd hvalid (defaultParams ty) kv hkv
    obtain ⟨d, hd, hcoerce⟩ := validate_ok_parts ty kv.1 kv.2 w hw
    have hdefs : aget (PARAMETER_DEFINITIONS ty) nd.1 = some nd.2 :=
      aget_of_mem_nodup (PARAMETER_DEFINITIONS ty) nd hnd2 (schema_keys_nodup ty)
    have hO : aget O kv.1 = some kv.2 := aget_of_mem_nodup O kv hkv hnd
    rw [hkey] at hget hd hO
    rw [hget, hO, hcoerce]
    have hdnd : d = nd.2 := Option.some.inj (hd.symm.trans hdefs)
    rw [hdnd]
  · rw [aget_applyValid_not_mem ty (defaultParams ty) O nd.1 hmem,
      aget_none_of_not_mem O nd.1 hmem, aget_defaultParams ty nd hnd2]

/-- C8. For a valid override set O (duplicate-free keys, every entry passing
the schema validation), construction succeeds and the parameters are exactly
the schema defaults overridden by O - one entry per schema field, in schema
order, override values coerced to booleans on boolean fields - and every
stored value lies within its field's [min, max] bounds. -/
theorem c8_create_defaults_overridden (ty : EffectType)
    (O : List (String × PVal)) (fresh : Nat)
    (hnd : (O.map Prod.fst).Nodup)
    (hvalid : ∀ kv ∈ O, (validateParam ty kv.1 kv.2).isOk = true) :
    (AudioEffect.create ty O fresh).isOk = true ∧
    ∀ e, AudioEffect.create ty O fresh = .ok e →
      e.parameters.map Prod.fst = (PARAMETER_DEFINITIONS ty).map Prod.fst ∧
      (∀ nd ∈ PARAMETER_DEFINITIONS ty,
        aget e.parameters nd.1 = some (match aget O nd.1 with
          | some v => coerceVal nd.2 v
          | none => nd.2.default)) ∧
      (∀ nd ∈ PARAMETER_DEFINITIONS ty, ∀ w, aget e.parameters nd.1 = some w →
        nd.2.min ≤ pyNum w ∧ pyNum w ≤ nd.2.max) := by
  have happ := applyUpdates_all_ok ty O (defaultParams ty) hvalid
  have hcreate : AudioEffect.create ty O fresh =
      .ok { id := fresh, type := ty, bypassed := false, position := 0,
            preset_name := none,
            parameters := applyValid ty (defaultParams ty) O } := by
    unfold AudioEffect.create
    rw [happ]
  refine ⟨by rw [hcreate]; rfl, ?_⟩
  intro e he
  rw [hcreate] at he
  cases he
  dsimp only
  refine ⟨applyValid_keys ty O (defaultParams ty) hvalid (defaultParams_keys ty),
    applyValid_defaults_aget ty O hnd hvalid, ?_⟩
  intro nd hnd2 w hw
  by_cases hmem : nd.1 ∈ O.map Prod.fst
  · obtain ⟨kv, hkv, hkey⟩ := List.mem_map.mp hmem
    obtain ⟨w0, hw0, hget⟩ :=
      applyValid_aget_mem ty O hnd hvalid (defaultParams ty) kv hkv
    rw [hkey] at hget
    have hww : w = w0 := Option.some.inj ((hw.symm.trans hget))
    subst hww
    have hdefs : aget (PARAMETER_DEFINITIONS ty) kv.1 = some nd.2 := by
      rw [hkey]
      exact aget_of_mem_nodup (PARAMETER_DEFINITIONS ty) nd hnd2 (schema_keys_nodup ty)
    exact validate_ok_range ty kv.1 kv.2 w hw0 nd.2 hdefs
  · rw [aget_applyValid_not_mem ty (defaultParams ty) O nd.1 hmem,
      aget_defaultParams ty nd hnd2] at hw
    have : w = nd.2.default := Option.some.inj hw.symm
    subst this
    exact defaults_in_range ty nd hnd2

/-- The override set used in the C8 witness: a numeric override plus a
boolean field overridden with the integer 1. -/
def c8O : List (String × PVal) :=
  [("mix", .num (Rat.divInt 1 2)), ("tempo_sync", .num 1)]

/-- The effect the witness expects: DELAY defaults with mix 0.5 and
tempo_sync coerced to True. -/
def c8Effect : AudioEffect :=
  { id := 4, type := .DELAY, bypassed := false, position := 0, preset_name := none,
    parameters := [("delay_seconds", .num (Rat.divInt 1 4)),
                   ("feedback", .num (Rat.divInt 3 10)),
                   ("mix", .num (Rat.divInt 1 2)),
                   ("tempo_sync", .bool true)] }

/-- C8 witness: creating a DELAY with overrides mix := 0.5, tempo_sync := 1
succeeds, keeps one entry per schema field in schema order, applies both
overrides (coercing tempo_sync to True) and leaves the other fields at their
defaults. -/
theorem c8_create_defaults_overridden_witness :
    (c8O.map Prod.fst).Nodup ∧
    (AudioEffect.create .DELAY c8O 4).isOk = true ∧
    AudioEffect.create .DELAY c8O 4 = .ok c8Effect ∧
    c8Effect.parameters.map Prod.fst = (PARAMETER_DEFINITIONS .DELAY).map Prod.fst ∧
    aget c8Effect.parameters "tempo_sync" = some (.bool true) ∧
    aget c8Effect.parameters "mix" = some (.num (Rat.divInt 1 2)) ∧
    aget c8Effect.parameters "delay_seconds" = some (.num (Rat.divInt 1 4)) := by
  have H := c8_create_defaults_overridden .DELAY c8O 4 (by decide) (by decide)
  have hc : AudioEffect.create .DELAY c8O 4 = .ok c8Effect := by decide
  have H2 := H.2 c8Effect hc
  refine ⟨by decide, H.1, hc, H2.1, ?_, ?_, ?_⟩
  · exact (H2.2.1 ("tempo_sync", ⟨0, 1, .bool false, "bool", "linear"⟩)
      (by decide)).trans (by decide)
  · exact (H2.2.1 ("mix", ⟨0, 1, .num (Rat.divInt 3 10), "", "linear"⟩)
      (by decide)).trans (by decide)
  · exact (H2.2.1 ("delay_seconds", ⟨0, 2, .num (Rat.divInt 1 4), "s", "linear"⟩)
      (by decide)).trans (by decide)

theorem pyEqB_refl (v : PVal) : pyEqB v v = true := by
  cases v <;> simp [pyEqB]

/-- A value stored by a successful validation is Python-equal to the value
that was supplied (coercion to bool preserves Python equality). -/
theorem pyEq_coerce (ty : EffectType) (k : String) (v w : PVal)
    (h : validateParam ty k v = .ok w) : pyEqB w v = true := by
  unfold validateParam at h
  cases hd : aget (PARAMETER_DEFINITIONS ty) k with
  | none => rw [hd] at h; exact absurd h (by simp)
  | some d =>
    rw [hd] at h
    dsimp only at h
    by_cases hu : (d.units == "bool") = true
    · rw [if_pos hu] at h
      split at h
      · next hacc =>
        cases h
        cases v with
        | num q =>
          simp only [pyEqB, pyNum, Bool.or_eq_true, beq_iff_eq] at hacc
          rcases hacc with h0 | h1
          · subst h0; norm_num [pyEqB, pyNum]
          · subst h1; norm_num [pyEqB, pyNum]
        | bool b => cases b <;> norm_num [pyEqB, pyNum]
      · exact absurd h (by simp)
    · rw [if_neg hu] at h
      split at h
      · exact absurd h (by simp)
      · cases h
        exact pyEqB_refl v

/-- The reconstructed parameter dict of an effect built from a complete,
valid stored dict is Python-equal to the stored dict. -/
theorem dictEqB_applyValid (ty : EffectType) (ps : List (String × PVal))
    (hnd : (ps.map Prod.fst).Nodup)
    (hvalid : ∀ kv ∈ ps, (validateParam ty kv.1 kv.2).isOk = true)
    (hcover : ∀ nd ∈ PARAMETER_DEFINITIONS ty, nd.1 ∈ ps.map Prod.fst) :
    dictEqB (applyValid ty (defaultParams ty) ps) ps = true := by
  have hkeys : (applyValid ty (defaultParams ty) ps).map Prod.fst =
      (PARAMETER_DEFINITIONS ty).map Prod.fst :=
    applyValid_keys ty ps (defaultParams ty) hvalid (defaultParams_keys ty)
  have hPnd : ((applyValid ty (defaultParams ty) ps).map Prod.fst).Nodup := by
    rw [hkeys]; exact schema_keys_nodup ty
  have hcoerceEq : ∀ kv ∈ ps, ∀ nd ∈ PARAMETER_DEFINITIONS ty, nd.1 = kv.1 →
      pyEqB (coerceVal nd.2 kv.2) kv.2 = true := by
    intro kv hkv nd hnd2 hkey
    obtain ⟨w, hw⟩ := isOk_exists_ok _ (hvalid kv hkv)
    obtain ⟨d, hd, hco⟩ := validate_ok_parts ty kv.1 kv.2 w hw
    have hdefs : aget (PARAMETER_DEFINITIONS ty) kv.1 = some nd.2 := by
      rw [← hkey]
      exact aget_of_mem_nodup (PARAMETER_DEFINITIONS ty) nd hnd2 (schema_keys_nodup ty)
    have hdnd : d = nd.2 := Option.some.inj (hd.symm.trans hdefs)
    rw [← hdnd, ← hco]
    exact pyEq_coerce ty kv.1 kv.2 w hw
  unfold dictEqB
  rw [Bool.and_eq_true]
  constructor
  · rw [List.all_eq_true]
    intro kv hkv
    have hk1 : kv.1 ∈ (PARAMETER_DEFINITIONS ty).map Prod.fst := by
      rw [← hkeys]
      exact List.mem_map.mpr ⟨kv, hkv, rfl⟩
    obtain ⟨nd, hnd2, hkey⟩ := List.mem_map.mp hk1
    obtain ⟨pv, hpv, hpkey⟩ := List.mem_map.mp (hcover nd hnd2)
    have hgetps : aget ps kv.1 = some pv.2 := by
      rw [← hkey, ← hpkey]
      exact aget_of_mem_nodup ps pv hpv hnd
    have hgetP : aget (applyValid ty (defaultParams ty) ps) kv.1 = some kv.2 :=
      aget_of_mem_nodup _ kv hkv hPnd
    have hchar := applyValid_defaults_aget ty ps hnd hvalid nd hnd2
    rw [hkey, hgetps] at hchar
    have hv2 : kv.2 = coerceVal nd.2 pv.2 := Option.some.inj (hgetP.symm.trans hchar)
    simp only [hgetps, hv2]
    exact hcoerceEq pv hpv nd hnd2 hpkey.symm
  · rw [List.all_eq_true]
    intro kv hkv
    obtain ⟨w, hw⟩ := isOk_exists_ok _ (hvalid kv hkv)
    have hk1 : kv.1 ∈ (PARAMETER_DEFINITIONS ty).map Prod.fst :=
      validate_ok_key_mem ty kv.1 kv.2 w hw
    obtain ⟨nd, hnd2, hkey⟩ := List.mem_map.mp hk1
    have hgetps : aget ps kv.1 = some kv.2 := aget_of_mem_nodup ps kv hkv hnd
    have hchar := applyValid_defaults_aget ty ps hnd hvalid nd hnd2
    rw [hkey, hgetps] at hchar
    simp only [hchar]
    exact hcoerceEq kv hkv nd hnd2 hkey

/-- A stored effect descriptor is well-formed when its kind parses, its
parameter dict is present, duplicate-free, schema-valid and covers every
schema field, and its bypassed flag is stored explicitly. -/
def WellFormedEffectCfg (cfg : EffectConfig) : Prop :=
  ∃ ty ps b, parseEffectType cfg.type = some ty ∧ cfg.parameters = some ps ∧
    (ps.map Prod.fst).Nodup ∧
    (∀ kv ∈ ps, (validateParam ty kv.1 kv.2).isOk = true) ∧
    (∀ nd ∈ PARAMETER_DEFINITIONS ty, nd.1 ∈ ps.map Prod.fst) ∧
    cfg.bypassed = some b

theorem buildEffect_ok (cfg : EffectConfig) (n : Nat) (h : WellFormedEffectCfg cfg) :
    ∃ e, buildEffect cfg n = .ok e ∧ matchesEffectB e cfg = true ∧ e.id = n := by
  obtain ⟨ty, ps, b, hparse, hps, hnd, hvalid, hcover, hbyp⟩ := h
  have happ := applyUpdates_all_ok ty ps (defaultParams ty) hvalid
  refine ⟨{ id := n, type := ty, bypassed := b, position := 0,
            preset_name := cfg.preset_name,
            parameters := applyValid ty (defaultParams ty) ps }, ?_, ?_, rfl⟩
  · unfold buildEffect
    rw [hparse]
    dsimp only
    unfold AudioEffect.create
    rw [hps]
    simp only [Option.getD_some]
    rw [happ]
    dsimp only
    rw [hbyp]
    simp only [Option.getD_some]
  · unfold matchesEffectB
    rw [hps, hbyp, hparse]
    simp only [Option.getD_some]
    rw [Bool.and_eq_true, Bool.and_eq_true]
    exact ⟨⟨by simp, dictEqB_applyValid ty ps hnd hvalid hcover⟩, by simp⟩

theorem jToPVal_pvalToJ (v : PVal) : jToPVal (pvalToJ v) = some v := by
  cases v <;> rfl

theorem omapM_params (ps : List (String × PVal)) :
    omapM (fun kv => (jToPVal kv.2).map (fun v => (kv.1, v)))
      (ps.map (fun kv => (kv.1, pvalToJ kv.2))) = some ps := by
  induction ps with
  | nil => rfl
  | cons kv rest ih => simp [omapM, jToPVal_pvalToJ, ih]

theorem jToParams_paramsToJ (ps : List (String × PVal)) :
    jToParams (paramsToJ ps) = some ps :=
  omapM_params ps

theorem omapM_strs (ts : List String) :
    omapM (fun t => match t with
      | J.js s => some s
      | _ => none) (ts.map J.js) = some ts := by
  induction ts with
  | nil => rfl
  | cons t rest ih => simp [omapM, ih]

theorem jToEffectConfig_roundtrip (c : EffectConfig) :
    jToEffectConfig (effectConfigToJ c) = some c := by
  rcases c with ⟨ty, ps, b, pn⟩
  cases ps <;> cases b <;> cases pn <;>
    simp [effectConfigToJ, jToEffectConfig, getJ, jToParams_paramsToJ]

theorem jToChainConfig_roundtrip (c : ChainConfig) :
    jToChainConfig (chainConfigToJ c) = some c := by
  rcases c with ⟨n, effects⟩
  have heff : omapM jToEffectConfig (effects.map effectConfigToJ) = some effects := by
    induction effects with
    | nil => rfl
    | cons e rest ih => simp [omapM, jToEffectConfig_roundtrip, ih]
  cases n <;> simp [chainConfigToJ, jToChainConfig, getJ, heff]

/-- Deserializing the canonical serialized form of a valid preset restores
the preset exactly (id, name, description, config, tags, author, version). -/
theorem from_json_to_json (p : Preset)
    (hname1 : 1 ≤ p.name.length) (hname2 : p.name.length ≤ 100)
    (hdesc : match p.description with
             | some d => d.length ≤ 500
             | none => True)
    (htags : p.tags.all tagOk = true) :
    Preset.from_json (Preset.to_json p) = .ok p := by
  rcases p with ⟨pid, pname, pdesc, pcfg, ptags, pauthor, pversion⟩
  dsimp only at hname1 hname2 hdesc htags
  have hid : ((pid : ℚ)).num.toNat = pid := by
    rw [Rat.num_natCast]
    exact Int.toNat_natCast pid
  have hc1 : (pname.length < 1 || pname.length > 100) = false := by
    simp only [Bool.or_eq_false_iff, decide_eq_false_iff_not, not_lt]
    omega
  have hc3 : (!(ptags.all tagOk)) = false := by rw [htags]; rfl
  have hno : ¬(pname.length = 0 ∨ 100 < pname.length) := by omega
  cases pdesc with
  | none =>
    cases pauthor <;>
      simp [Preset.to_json, Preset.from_json, getJ, jOptStr,
        jToChainConfig_roundtrip, omapM_strs, Preset.make, hc1, hc3, hid, hno]
  | some d =>
    have hc2 : decide (d.length > 500) = false := by
      simp only at hdesc
      simp only [decide_eq_false_iff_not, not_lt]
      omega
    cases pauthor <;>
      simp [Preset.to_json, Preset.from_json, getJ, jOptStr,
        jToChainConfig_roundtrip, omapM_strs, Preset.make, hc1, hc2, hc3, hid, hno]

theorem addEffects_ok (fresh : Nat) (cfgs : List EffectConfig) :
    ∀ (c : EffectsChain) (i : Nat),
      (∀ cfg ∈ cfgs, WellFormedEffectCfg cfg) →
      c.effects.length + cfgs.length ≤ MAX_EFFECTS →
      (∀ e ∈ c.effects, e.id < fresh + 1 + i) →
      ∃ es, addEffectsFromConfigs fresh c cfgs i =
          .ok { c with effects := c.effects ++ es } ∧
        es.length = cfgs.length ∧
        (List.zip es cfgs).all (fun pq => matchesEffectB pq.1 pq.2) = true := by
  induction cfgs with
  | nil =>
    intro c i _ _ _
    exact ⟨[], by simp [addEffectsFromConfigs], rfl, rfl⟩
  | cons cfg rest ih =>
    intro c i hwf hlen hid
    obtain ⟨e, hbe, hmatch, heid⟩ :=
      buildEffect_ok cfg (fresh + 1 + i) (hwf cfg (List.mem_cons_self _ _))
    have hcap : ¬ (c.effects.length ≥ MAX_EFFECTS) := by
      simp only [List.length_cons] at hlen
      simp only [MAX_EFFECTS] at hlen ⊢
      omega
    have hdup : (c.effects.any (fun x => x.id == e.id)) = false := by
      rw [List.any_eq_false]
      intro x hx
      have hxid := hid x hx
      simp only [beq_iff_eq, heid]
      omega
    have hadd : c.add_effect e =
        .ok { c with effects := c.effects ++ [{ e with position := (c.effects.length : Int) }] } := by
      unfold EffectsChain.add_effect
      rw [if_neg hcap, hdup]
      rfl
    have hid1 : ∀ x ∈ c.effects ++ [{ e with position := (c.effects.length : Int) }],
        x.id < fresh + 1 + (i + 1) := by
      intro x hx
      rcases List.mem_append.mp hx with hold | hnew
      · have := hid x hold
        omega
      · have : x = { e with position := (c.effects.length : Int) } := by simpa using hnew
        subst this
        simp only [heid]
        omega
    obtain ⟨es, heq, hlen', hzip⟩ :=
      ih { c with effects := c.effects ++ [{ e with position := (c.effects.length : Int) }] }
        (i + 1) (fun x hx => hwf x (List.mem_cons_of_mem _ hx))
        (by simp only [List.length_append, List.length_cons, List.length_nil] at hlen ⊢; omega)
        hid1
    refine ⟨{ e with position := (c.effects.length : Int) } :: es, ?_, ?_, ?_⟩
    · simp only [addEffectsFromConfigs, bind, Except.bind]
      rw [hbe]
      dsimp only
      rw [hadd]
      dsimp only
      rw [heq]
      simp [List.append_assoc]
    · simp [hlen']
    · simp only [List.zip_cons_cons, List.all_cons, Bool.and_eq_true]
      exact ⟨hmatch, hzip⟩

/-- A preset is well-formed for the round-trip law when its own name fits the
1-50 chain-name bound, its metadata passes the constructor validations, its
config has at most 8 effect descriptors, and every descriptor is complete and
schema-valid. -/
def WellFormedPreset (p : Preset) : Prop :=
  1 ≤ p.name.length ∧ p.name.length ≤ 50 ∧
  (match p.description with
   | some d => d.length ≤ 500
   | none => True) ∧
  p.tags.all tagOk = true ∧
  p.effects_chain_config.effects.length ≤ MAX_EFFECTS ∧
  ∀ cfg ∈ p.effects_chain_config.effects, WellFormedEffectCfg cfg

/-- C1 amended: for every WELL-FORMED preset (complete stored parameter
dicts, explicit bypassed flags, at most 8 effects, preset name within the
chain-name bound), serialize / deserialize / reconstruct succeeds and the
chain's effects match the preset's effects_chain_config exactly in kind,
parameters (Python dict equality) and bypassed flag, in order. For presets
with partial parameter dicts the law fails (see the counterexample): the
reconstruction fills schema defaults the config never stored. -/
theorem c1_roundtrip_wellformed (p : Preset) (fresh : Nat) (h : WellFormedPreset p) :
    ((Preset.from_json (Preset.to_json p)).bind
       (fun q => q.to_effects_chain fresh)).map
      (fun c : EffectsChain => matchesChainB c p.effects_chain_config) = .ok true := by
  obtain ⟨h1, h2, h3, h4, h5, h6⟩ := h
  have hrt := from_json_to_json p h1 (le_trans h2 (by norm_num)) h3 h4
  rw [hrt]
  simp only [bind, Except.bind]
  unfold Preset.to_effects_chain
  have hcond : (p.name.length < 1 || p.name.length > 50) = false := by
    simp only [Bool.or_eq_false_iff, decide_eq_false_iff_not, not_lt]
    omega
  have hmk : EffectsChain.make fresh p.name =
      .ok { id := fresh, name := p.name, effects := [], active := false } := by
    unfold EffectsChain.make
    rw [hcond]
    rfl
  simp only [bind, Except.bind]
  rw [hmk]
  obtain ⟨es, heq, hlen', hzip⟩ :=
    addEffects_ok fresh p.effects_chain_config.effects
      { id := fresh, name := p.name, effects := [], active := false } 0 h6
      (by simpa using h5) (by intro e he; simp at he)
  dsimp only
  rw [heq]
  simp only [Except.map]
  unfold matchesChainB
  simp only [List.nil_append]
  rw [hlen']
  simp [hzip]

/-- A well-formed two-effect preset for the round-trip witness: complete
parameter dicts, explicit bypassed flags, distinct preset and snapshot
names. -/
def c1Demo : Preset :=
  { id := 11, name := "Lead", description := some "demo", tags := ["rock"],
    author := some "me", version := "1.0.0",
    effects_chain_config :=
      { name := some "Old Name",
        effects :=
          [{ type := "BOOST",
             parameters := some [("gain_db", .num 6), ("tone", .num (Rat.divInt 3 5))],
             bypassed := some false, preset_name := none },
           { type := "DELAY",
             parameters := some [("delay_seconds", .num (Rat.divInt 1 2)),
                                 ("feedback", .num (Rat.divInt 1 10)),
                                 ("mix", .num (Rat.divInt 1 4)),
                                 ("tempo_sync", .bool true)],
             bypassed := some true, preset_name := some "slap" }] } }

/-- C1 witness: the round-trip law holds at the concrete well-formed preset
above - its serialized form deserializes and reconstructs to a chain that
matches the stored config exactly. -/
theorem c1_roundtrip_wellformed_witness :
    WellFormedPreset c1Demo ∧
    ((Preset.from_json (Preset.to_json c1Demo)).bind
       (fun q => q.to_effects_chain 20)).map
      (fun c : EffectsChain => matchesChainB c c1Demo.effects_chain_config) =
      .ok true := by
  have hwf : WellFormedPreset c1Demo := by
    refine ⟨by decide, by decide, by show ("demo" : String).length ≤ 500; decide,
      by decide, by decide, ?_⟩
    intro cfg hcfg
    rcases List.mem_cons.mp hcfg with rfl | htail
    · exact ⟨.BOOST, [("gain_db", .num 6), ("tone", .num (Rat.divInt 3 5))], false,
        rfl, rfl, by decide, by decide, by decide, rfl⟩
    · rcases List.mem_cons.mp htail with rfl | hnil
      · exact ⟨.DELAY,
          [("delay_seconds", .num (Rat.divInt 1 2)),
           ("feedback", .num (Rat.divInt 1 10)),
           ("mix", .num (Rat.divInt 1 4)),
           ("tempo_sync", .bool true)], true,
          rfl, rfl, by decide, by decide, by decide, rfl⟩
      · exact absurd hnil (by simp)
  exact ⟨hwf, c1_roundtrip_wellformed c1Demo 20 hwf⟩

end Pedalboard
